import Mathlib

/-
Verification of the binary-string index printer (`fuck.py`).

The program validates that an input string holds only the characters '0'
and '1', then prints two lines: the bits, each centered in a 3-character
column, and beneath every '1' bit its reversed index (N-1-i for position i
in a string of length N), centered in the same column; '0' bits get three
blank spaces beneath them.  Strings are modelled as `List Char`; a printed
output is the list of the lines written to standard output.
-/

namespace BinaryIndices

/-- The column width constant of the source (line 15: `width = 3`). -/
def width : Nat := 3

/-- Python's centered formatting `f"{v:^w}"` on the already rendered glyphs
`s`: total padding `w - s.length` (truncated at zero), `pad / 2` spaces to
the left and the remaining spaces to the right, so the extra space goes to
the right when the padding is odd. -/
def pyCenter (s : List Char) (w : Nat) : List Char :=
  List.replicate ((w - s.length) / 2) ' ' ++ s ++
    List.replicate ((w - s.length) - (w - s.length) / 2) ' '

/-- The decimal digit character of `n` (for `n < 10`). -/
def digitChar (n : Nat) : Char := Char.ofNat (48 + n)

/-- Python's decimal rendering of a nonnegative int (`f"{n}"`): the decimal
digits, most significant first. -/
def natRepr (n : Nat) : List Char :=
  if _h : n < 10 then [digitChar n]
  else natRepr (n / 10) ++ [digitChar (n % 10)]
termination_by n
decreasing_by exact Nat.div_lt_self (by omega) (by omega)

/-- The validator of line 10 of the source:
`all(bit in "01" for bit in binary_string)`. -/
def isBinaryString (s : List Char) : Bool :=
  s.all fun bit => bit == '0' || bit == '1'

/-- Line 18 of the source: every bit centered in a `width`-wide column,
concatenated in order. -/
def bitsLine (s : List Char) : List Char :=
  (s.map fun bit => pyCenter [bit] width).flatten

/-- Line 22 of the source: `list(range(len(binary_string)-1, -1, -1))`,
the values N-1, N-2, ..., 0. -/
def reversedIndices (n : Nat) : List Nat := (List.range n).reverse

/-- Lines 25-28 of the source: for every position, the reversed index of a
'1' bit centered in the column, three spaces for any other bit. -/
def indicesLine (s : List Char) : List Char :=
  (s.enum.map fun p =>
    if p.2 == '1' then
      pyCenter (natRepr ((reversedIndices s.length).getD p.1 0)) width
    else List.replicate width ' ').flatten

/-- The error line printed on line 11 of the source. -/
def errorMessage : List Char :=
  String.toList "Error: Input must be a binary string containing only '0' and '1'."

/-- The whole function `print_binary_with_one_indices_reversed`: the list of
lines it writes to standard output. -/
def print_binary_with_one_indices_reversed (s : List Char) : List (List Char) :=
  if isBinaryString s then [bitsLine s, indicesLine s]
  else [errorMessage]

/-- The interactive prompt of line 34 of the source. -/
def prompt : List Char := String.toList "Enter a binary string: "

/-- Python's `str.isspace` test for the ASCII whitespace characters that
`str.strip()` removes. -/
def isPySpace (c : Char) : Bool :=
  c == ' ' || c == '\t' || c == '\n' || c == '\r' ||
    c == Char.ofNat 11 || c == Char.ofNat 12

/-- Python's `input(...).strip()` step of line 34: drop leading and trailing
whitespace from the line that was read. -/
def pyStrip (s : List Char) : List Char :=
  ((s.dropWhile isPySpace).reverse.dropWhile isPySpace).reverse

/-- The `__main__` block, lines 32-36 of the source: the lines printed for a
given input line (after the prompt), which is stripped before processing. -/
def mainOutput (line : List Char) : List (List Char) :=
  print_binary_with_one_indices_reversed (pyStrip line)

/-! ### Helper lemmas -/

lemma isBinaryString_iff (s : List Char) :
    isBinaryString s = true ↔ ∀ c ∈ s, c = '0' ∨ c = '1' := by
  simp [isBinaryString, List.all_eq_true]

lemma natRepr_of_lt {n : Nat} (h : n < 10) : natRepr n = [digitChar n] := by
  rw [natRepr]
  simp [h]

lemma natRepr_of_ge {n : Nat} (h : 10 ≤ n) :
    natRepr n = natRepr (n / 10) ++ [digitChar (n % 10)] := by
  conv_lhs => rw [natRepr]
  rw [dif_neg (by omega)]

lemma natRepr_length_pos (n : Nat) : 0 < (natRepr n).length := by
  by_cases h : n < 10
  · simp [natRepr_of_lt h]
  · rw [natRepr_of_ge (by omega)]
    simp

lemma natRepr_length_two {n : Nat} (h1 : 10 ≤ n) (h2 : n < 100) :
    (natRepr n).length = 2 := by
  rw [natRepr_of_ge h1, natRepr_of_lt (by omega : n / 10 < 10)]
  simp

lemma natRepr_length_le_three {n : Nat} (h : n < 1000) :
    (natRepr n).length ≤ 3 := by
  by_cases h1 : n < 10
  · simp [natRepr_of_lt h1]
  · by_cases h2 : n < 100
    · rw [natRepr_length_two (by omega) h2]
      omega
    · rw [natRepr_of_ge (by omega), natRepr_of_ge (by omega : 10 ≤ n / 10),
        natRepr_of_lt (by omega : n / 10 / 10 < 10)]
      simp

lemma natRepr_length_ge_four {n : Nat} (h : 1000 ≤ n) :
    4 ≤ (natRepr n).length := by
  rw [natRepr_of_ge (by omega), natRepr_of_ge (by omega : 10 ≤ n / 10),
    natRepr_of_ge (by omega : 10 ≤ n / 10 / 10)]
  have := natRepr_length_pos (n / 10 / 10 / 10)
  simp
  omega

lemma pyCenter_length (s : List Char) (w : Nat) :
    (pyCenter s w).length = max w s.length := by
  simp [pyCenter]
  omega

lemma pyCenter_singleton (c : Char) : pyCenter [c] width = [' ', c, ' '] := by
  simp [pyCenter, width, List.replicate]

lemma pyCenter_pair (a b : Char) : pyCenter [a, b] width = [a, b, ' '] := by
  simp [pyCenter, width, List.replicate]

lemma pyCenter_of_length_two {s : List Char} (hs : s.length = 2) :
    pyCenter s 3 = s ++ [' '] := by
  simp [pyCenter, hs]

/-- The indices line, rewritten from the `enumerate` form of the source to a
direct formula over the positions `0, ..., N-1`. -/
lemma indicesLine_eq (s : List Char) :
    indicesLine s = ((List.range s.length).map fun i =>
      if s.getD i '0' == '1' then
        pyCenter (natRepr (s.length - 1 - i)) width
      else List.replicate width ' ').flatten := by
  unfold indicesLine
  congr 1
  apply List.ext_getElem
  · simp
  · intro i h1 h2
    have hi : i < s.length := by simpa using h1
    have hrev : i < (reversedIndices s.length).length := by
      simpa [reversedIndices] using hi
    simp only [List.getElem_map, List.getElem_enum, List.getElem_range]
    rw [List.getD_eq_getElem _ '0' hi, List.getD_eq_getElem _ 0 hrev]
    have : (reversedIndices s.length)[i] = s.length - 1 - i := by
      simp [reversedIndices, List.getElem_reverse]
    rw [this]

lemma sum_eq_of_const (l : List Nat) (m : Nat) (h : ∀ x ∈ l, x = m) :
    l.sum = m * l.length := by
  induction l with
  | nil => simp
  | cons a t ih =>
    have ha := h a (List.mem_cons_self a t)
    have ht := ih fun x hx => h x (List.mem_cons_of_mem a hx)
    simp only [List.sum_cons, List.length_cons, ha, ht]
    ring

lemma sum_le_of_ge (l : List Nat) (m : Nat) (h : ∀ x ∈ l, m ≤ x) :
    m * l.length ≤ l.sum := by
  induction l with
  | nil => simp
  | cons a t ih =>
    have ha := h a (List.mem_cons_self a t)
    have ht := ih fun x hx => h x (List.mem_cons_of_mem a hx)
    simp only [List.sum_cons, List.length_cons, Nat.mul_succ]
    omega

lemma sum_lt_of_mem_gt (l : List Nat) (m x : Nat) (hx : x ∈ l)
    (hall : ∀ y ∈ l, m ≤ y) (hgt : m < x) : m * l.length < l.sum := by
  induction l with
  | nil => simp at hx
  | cons a t ih =>
    have htail := sum_le_of_ge t m fun y hy => hall y (List.mem_cons_of_mem a hy)
    rcases List.mem_cons.1 hx with rfl | hxt
    · simp only [List.sum_cons, List.length_cons, Nat.mul_succ]
      omega
    · have := ih hxt fun y hy => hall y (List.mem_cons_of_mem a hy)
      have ha := hall a (List.mem_cons_self a t)
      simp only [List.sum_cons, List.length_cons, Nat.mul_succ]
      omega

lemma flatten_length_eq (l : List (List Char)) (hall : ∀ y ∈ l, y.length = 3) :
    l.flatten.length = 3 * l.length := by
  rw [List.length_flatten]
  have := sum_eq_of_const (l.map List.length) 3 (by
    intro y hy
    obtain ⟨z, hz, rfl⟩ := List.mem_map.1 hy
    exact hall z hz)
  simpa using this

lemma flatten_length_gt (l : List (List Char)) (x : List Char) (hx : x ∈ l)
    (hall : ∀ y ∈ l, 3 ≤ y.length) (hgt : 3 < x.length) :
    3 * l.length < l.flatten.length := by
  rw [List.length_flatten]
  have := sum_lt_of_mem_gt (l.map List.length) 3 x.length
    (List.mem_map.2 ⟨x, hx, rfl⟩)
    (by
      intro y hy
      obtain ⟨z, hz, rfl⟩ := List.mem_map.1 hy
      exact hall z hz) hgt
  simpa using this

/-! ### The claims -/

/-- C1: for every binary input of length N, the second printed line is the
concatenation over positions i = 0..N-1 of the decimal rendering of N-1-i
centered in a 3-character field when the character at i is '1', and exactly
3 spaces when it is '0'. -/
theorem C1_indices_line (s : List Char) (_h : isBinaryString s = true) :
    indicesLine s = ((List.range s.length).map fun i =>
      if s.getD i '0' = '1' then
        pyCenter (natRepr (s.length - 1 - i)) 3
      else List.replicate 3 ' ').flatten := by
  rw [indicesLine_eq]
  simp [width]

/-- Witness for C1: the indices-line formula at the concrete input "101". -/
theorem C1_witness :
    indicesLine (String.toList "101") =
      ((List.range (String.toList "101").length).map fun i =>
        if (String.toList "101").getD i '0' = '1' then
          pyCenter (natRepr ((String.toList "101").length - 1 - i)) 3
        else List.replicate 3 ' ').flatten :=
  C1_indices_line (String.toList "101") (by decide)

/-- C2: for every binary input, the first printed line is each character
centered in a 3-character field, concatenated in order, and it is printed
before the indices line, with no trimming. -/
theorem C2_bits_line (s : List Char) (h : isBinaryString s = true) :
    print_binary_with_one_indices_reversed s = [bitsLine s, indicesLine s] ∧
    bitsLine s = (s.map fun c => [' ', c, ' ']).flatten := by
  refine ⟨by simp [print_binary_with_one_indices_reversed, h], ?_⟩
  simp [bitsLine, pyCenter_singleton]

/-- Witness for C2: the two output lines at the concrete input "101". -/
theorem C2_witness :
    print_binary_with_one_indices_reversed (String.toList "101") =
      [bitsLine (String.toList "101"), indicesLine (String.toList "101")] :=
  (C2_bits_line (String.toList "101") (by decide)).1

/-- C3: validation succeeds iff every character of the string is '0' or '1';
in particular the empty string is accepted and a string with any other
character is rejected. -/
theorem C3_validator_iff (s : List Char) :
    (isBinaryString s = true ↔ ∀ c ∈ s, c = '0' ∨ c = '1') ∧
    isBinaryString [] = true :=
  ⟨isBinaryString_iff s, rfl⟩

/-- C4: for every input with a character outside {'0','1'}, the whole output
is the single fixed error line and no bit or index line is produced. -/
theorem C4_invalid_error (s : List Char) (c : Char) (hc : c ∈ s)
    (h0 : c ≠ '0') (h1 : c ≠ '1') :
    print_binary_with_one_indices_reversed s = [errorMessage] := by
  have hfalse : isBinaryString s = false := by
    rcases Bool.eq_false_or_eq_true (isBinaryString s) with hb | hb
    · rcases (isBinaryString_iff s).1 hb c hc with h | h
      · exact absurd h h0
      · exact absurd h h1
    · exact hb
  simp [print_binary_with_one_indices_reversed, hfalse]

/-- Witness for C4: the error line is the whole output for input "abc". -/
theorem C4_witness :
    print_binary_with_one_indices_reversed (String.toList "abc") = [errorMessage] :=
  C4_invalid_error (String.toList "abc") 'a' (by decide) (by decide) (by decide)

/-- C5: centering in the 3-wide field puts the extra space on the right: a
1-glyph value gets one leading and one trailing space, and a 2-digit
reversed index gets its two digits followed by exactly one trailing space
and no leading space. -/
theorem C5_centering_rule :
    (∀ c : Char, pyCenter [c] 3 = [' ', c, ' ']) ∧
    (∀ a b : Char, pyCenter [a, b] 3 = [a, b, ' ']) ∧
    (∀ n : Nat, 10 ≤ n → n ≤ 99 → pyCenter (natRepr n) 3 = natRepr n ++ [' ']) :=
  ⟨fun c => pyCenter_singleton c, fun a b => pyCenter_pair a b,
    fun _ h1 h2 => pyCenter_of_length_two (natRepr_length_two h1 (by omega))⟩

/-- Witness for C5: the two-digit reversed index 10 is rendered with one
trailing space and no leading space. -/
theorem C5_witness :
    pyCenter (natRepr 10) 3 = natRepr 10 ++ [' '] :=
  C5_centering_rule.2.2 10 (by omega) (by omega)

/-- C6: the concrete examples of the spec: inputs "0", "1" and "101" give
exactly the documented pairs of lines. -/
theorem C6_examples :
    print_binary_with_one_indices_reversed (String.toList "0") =
      [String.toList " 0 ", String.toList "   "] ∧
    print_binary_with_one_indices_reversed (String.toList "1") =
      [String.toList " 1 ", String.toList " 0 "] ∧
    print_binary_with_one_indices_reversed (String.toList "101") =
      [String.toList " 1  0  1 ", String.toList " 2     0 "] := by
  have h0 : natRepr 0 = ['0'] := by rw [natRepr_of_lt (by omega)]; rfl
  have h2 : natRepr 2 = ['2'] := by rw [natRepr_of_lt (by omega)]; rfl
  refine ⟨?_, ?_, ?_⟩ <;>
    simp [print_binary_with_one_indices_reversed, isBinaryString, bitsLine, indicesLine,
      reversedIndices, width, pyCenter, h0, h2, List.enum, List.enumFrom, List.replicate,
      List.range_succ]

/-- C7: the empty input is accepted and both printed lines are empty. -/
theorem C7_empty_input :
    isBinaryString [] = true ∧
    print_binary_with_one_indices_reversed [] = [[], []] := by
  decide

/-- C8: the render/validate operation is a pure function of its argument:
equal inputs give byte-for-byte equal output, both for the formatter and
for the stripped entry point. -/
theorem C8_pure_function (s₁ s₂ : List Char) (h : s₁ = s₂) :
    print_binary_with_one_indices_reversed s₁ =
      print_binary_with_one_indices_reversed s₂ ∧
    mainOutput s₁ = mainOutput s₂ :=
  ⟨congrArg _ h, congrArg _ h⟩

/-- Witness for C8: two invocations on the input "101" agree. -/
theorem C8_witness :
    print_binary_with_one_indices_reversed (String.toList "101") =
      print_binary_with_one_indices_reversed (String.toList "101") :=
  (C8_pure_function (String.toList "101") (String.toList "101") rfl).1

/-- C9: the entry point strips leading and trailing whitespace from the line
it read after the prompt "Enter a binary string: ", so a line whose
non-whitespace core is a binary string is accepted (rendered, not
rejected). -/
theorem C9_strip_then_process (line : List Char)
    (h : isBinaryString (pyStrip line) = true) :
    mainOutput line = [bitsLine (pyStrip line), indicesLine (pyStrip line)] ∧
    mainOutput line ≠ [errorMessage] ∧
    prompt = String.toList "Enter a binary string: " := by
  have hm : mainOutput line = [bitsLine (pyStrip line), indicesLine (pyStrip line)] := by
    simp [mainOutput, print_binary_with_one_indices_reversed, h]
  refine ⟨hm, ?_, rfl⟩
  rw [hm]
  intro hcontra
  simp at hcontra

/-- Witness for C9: the line "  101 " (whitespace around a binary core) is
accepted and rendered from its stripped core. -/
theorem C9_witness :
    mainOutput (String.toList "  101 ") =
      [bitsLine (pyStrip (String.toList "  101 ")),
       indicesLine (pyStrip (String.toList "  101 "))] :=
  (C9_strip_then_process (String.toList "  101 ") (by decide)).1

/-- C10: for every valid binary input of length at most 1000, the bits line
and the indices line both have length exactly 3 N, so the columns align;
and for an input holding a '1' whose reversed index exceeds 999 (which
needs N > 1000), the indices line is strictly longer than 3 N, so the
equality fails. -/
theorem C10_alignment :
    (∀ s : List Char, isBinaryString s = true → s.length ≤ 1000 →
      (bitsLine s).length = 3 * s.length ∧ (indicesLine s).length = 3 * s.length) ∧
    (∀ (s : List Char) (i : Nat), i < s.length → s.getD i '0' = '1' →
      999 < s.length - 1 - i → 3 * s.length < (indicesLine s).length) := by
  constructor
  · intro s _hbin hlen
    constructor
    · have h1 : ∀ y ∈ s.map fun bit => pyCenter [bit] width, y.length = 3 := by
        intro y hy
        obtain ⟨c, _, rfl⟩ := List.mem_map.1 hy
        rw [pyCenter_singleton]
        rfl
      unfold bitsLine
      rw [flatten_length_eq _ h1, List.length_map]
    · rw [indicesLine_eq]
      have h2 : ∀ y ∈ (List.range s.length).map fun i =>
          if s.getD i '0' == '1' then pyCenter (natRepr (s.length - 1 - i)) width
          else List.replicate width ' ', y.length = 3 := by
        intro y hy
        obtain ⟨i, hi, rfl⟩ := List.mem_map.1 hy
        have hiN := List.mem_range.1 hi
        by_cases hb : s.getD i '0' == '1'
        · simp only [hb, if_true]
          rw [pyCenter_length]
          have := natRepr_length_le_three (n := s.length - 1 - i) (by omega)
          simp [width]
          omega
        · simp only [hb, if_false]
          simp [width]
      rw [flatten_length_eq _ h2, List.length_map, List.length_range]
  · intro s i hi hbit hbig
    rw [indicesLine_eq]
    have hx : pyCenter (natRepr (s.length - 1 - i)) width ∈
        (List.range s.length).map fun i =>
          if s.getD i '0' == '1' then pyCenter (natRepr (s.length - 1 - i)) width
          else List.replicate width ' ' :=
      List.mem_map.2 ⟨i, List.mem_range.2 hi, by simp only [hbit]; simp⟩
    have hall : ∀ y ∈ (List.range s.length).map fun i =>
        if s.getD i '0' == '1' then pyCenter (natRepr (s.length - 1 - i)) width
        else List.replicate width ' ', 3 ≤ y.length := by
      intro y hy
      obtain ⟨j, _, rfl⟩ := List.mem_map.1 hy
      by_cases hb : s.getD j '0' == '1'
      · simp only [hb, if_true]
        rw [pyCenter_length]
        simp [width]
      · simp only [hb, if_false]
        simp [width]
    have hgt : 3 < (pyCenter (natRepr (s.length - 1 - i)) width).length := by
      rw [pyCenter_length]
      have := natRepr_length_ge_four (n := s.length - 1 - i) (by omega)
      simp [width]
      omega
    have := flatten_length_gt _ _ hx hall hgt
    simpa using this

/-- Witness for C10: the alignment equality at the concrete input "101", and
the strict overflow inequality at the 1001-character all-ones input, whose
first bit has reversed index 1000. -/
theorem C10_witness :
    (bitsLine (String.toList "101")).length = 3 * (String.toList "101").length ∧
    3 * (List.replicate 1001 '1').length <
      (indicesLine (List.replicate 1001 '1')).length := by
  constructor
  · exact (C10_alignment.1 (String.toList "101") (by decide) (by decide)).1
  · exact C10_alignment.2 (List.replicate 1001 '1') 0
      (by rw [List.length_replicate]; omega)
      (by rw [List.replicate_succ]; rfl)
      (by rw [List.length_replicate]; omega)
